import Mathlib

/-!
Verification of the hareactive FRP core against its specification.

The repository mixes two generations of the library:

* `src/src/Stream.ts` — array-of-listeners streams (`publish`, `map`,
  `filter`, `scan`, `snapshot`), streams store their last value;
* `src/src/future.ts` — futures over a newer `Reactive` base class
  (`common.ts`, not present under `src/`); that base is modelled from the
  spec where needed;
* `src/unnamed/part_000` — an intermediate `common.ts`: `Reactive` with
  `nrOfListeners`, inline child / `MultiObserver` listener storage.

All definitions are shallow embeddings of the corresponding TypeScript,
translated function by function.  JavaScript arrays mutated during
iteration are modelled by explicit loop counters over `List`, with the
length either cached before the loop or re-read each iteration, exactly
as in the source.
-/

/-- Universe of runtime values: integers, strings and pairs (tuples such
as the `[a, b]` emitted by `SnapshotStream`). -/
inductive Val where
  | int (n : Int)
  | str (s : String)
  | pair (a b : Val)
deriving DecidableEq, Repr

/-! ## Streams of `src/src/Stream.ts`

`Stream.publish` (lines 16–30) stores the value in `this.last`, then runs
two loops: over `cbListeners` and over `eventListeners`.  In both loops the
length is read once, before the loop (`let l = this.cbListeners.length`),
so elements appended while the loop runs are beyond the cached bound.
A listener is modelled by what its callback does to the stream it is
registered on: either it only records the value, or it first appends a
new listener to the same list (a reentrant `subscribe`/`map` call) and
then records the value. -/
inductive Ob where
  | record (id : Nat)
  | addThenRecord (newOb : Ob) (id : Nat)
deriving DecidableEq, Repr

/-- The identifier a listener reports with. -/
def Ob.idOf : Ob → Nat
  | .record i => i
  | .addThenRecord _ i => i

/-- One iteration of a listener loop: invoke `arr[i]` with value `a`;
the callback may append a listener to `arr` and records `(id, a)`. -/
def obStep (a : Val) (arr : List Ob) (i : Nat) (log : List (Nat × Val)) :
    List Ob × List (Nat × Val) :=
  match arr.get? i with
  | some (.record id) => (arr, log ++ [(id, a)])
  | some (.addThenRecord nw id) => (arr ++ [nw], log ++ [(id, a)])
  | none => (arr, log)

/-- The cached-length loop of `Stream.publish`: `k` iterations remain,
`i` is the loop index.  `k` is fixed to the length of the array as it was
when the loop started, mirroring `let l = xs.length; for (; i < l; i++)`. -/
def cbLoop (a : Val) : Nat → Nat → List Ob → List (Nat × Val) →
    List Ob × List (Nat × Val)
  | 0, _, arr, log => (arr, log)
  | k + 1, i, arr, log =>
      let s := obStep a arr i log
      cbLoop a k (i + 1) s.1 s.2

/-- State of a `Stream` object: its `last` field (`undefined` before the
first publish) and its `cbListeners` array.  The `eventListeners` array
has identical loop mechanics and is not duplicated here. -/
structure StreamSt where
  last : Option Val
  cbs : List Ob
deriving Repr

/-- `Stream.publish(a)` (Stream.ts lines 16–30): store `a` into
`this.last`, then run the cached-length callback loop.  Returns the new
stream state and the log of listener invocations. -/
def streamPublish (a : Val) (s : StreamSt) : StreamSt × List (Nat × Val) :=
  let r := cbLoop a s.cbs.length 0 s.cbs []
  ({ last := some a, cbs := r.1 }, r.2)

/-- The re-reading loop of `MultiObserver.push` (part_000 lines 47–51):
`for (let i = 0; i < this.listeners.length; ++i)` — the bound is the
CURRENT length, re-read every iteration, so listeners appended during the
fan-out are reached.  `fuel` makes the recursion structural; every
theorem below instantiates it large enough that the `i < arr.length`
test, not the fuel, stops the loop. -/
def moLoop (a : Val) : Nat → Nat → List Ob → List (Nat × Val) →
    List (Nat × Val)
  | 0, _, _, log => log
  | k + 1, i, arr, log =>
      if i < arr.length then
        let s := obStep a arr i log
        moLoop a k (i + 1) s.1 s.2
      else log

/-- `MultiObserver.push(a)`: visit `listeners` with the length re-read
each iteration. -/
def multiObserverPush (fuel : Nat) (a : Val) (listeners : List Ob) :
    List (Nat × Val) :=
  moLoop a fuel 0 listeners []

/-! ## Map streams (`MapStream.push`, Stream.ts lines 77–85)

`push(a)` calls `publish(this.fn(a))`: exactly one occurrence is emitted
per parent occurrence.  The observable output of a stream node over a
tick sequence is the concatenation of what each push emits. -/

/-- Occurrences emitted by `MapStream.push` for one parent occurrence. -/
def mapStreamPush (f : Val → Val) (a : Val) : List Val := [f a]

/-- Published output of a map stream over a sequence of parent
occurrences. -/
def mapStreamRun (f : Val → Val) (xs : List Val) : List Val :=
  xs.flatMap (mapStreamPush f)

/-- Published output of a sink stream fed the sequence `xs`
(`SinkStream.push` republishes its input unchanged, Stream.ts line 72). -/
def sinkStreamRun (xs : List Val) : List Val := xs

/-! ## Behaviors and snapshot (`SnapshotStream`, Stream.ts lines 109–118)

Modelled from the spec: the class `Behavior` (`src/Behavior.ts`) is not
under `src/`; per the spec, `at(behavior)` returns the current value of a
behavior (its `last` when pushing, `pull()` when pulling).  Within a
single tick that is one fixed value, so a behavior is modelled by the
value `at` returns. -/
structure BehaviorV where
  current : Val
deriving DecidableEq, Repr

/-- Modelled from the spec: `at(b)` samples the behavior's current
value. -/
def atB (b : BehaviorV) : Val := b.current

/-- `SnapshotStream.push(a)` (Stream.ts line 116):
`this.publish([a, at(this.behavior)])` — one occurrence whose value is
the PAIR of the stream occurrence and the sampled behavior value. -/
def snapshotStreamPush (b : BehaviorV) (a : Val) : List Val :=
  [Val.pair a (atB b)]

/-- Published output of `snapshot(b, s)` over a sequence of occurrences
of `s`. -/
def snapshotStreamRun (b : BehaviorV) (xs : List Val) : List Val :=
  xs.flatMap (snapshotStreamPush b)

/-! ## Futures of `src/src/future.ts`

`Future` extends the newer `Reactive` base (`common.ts`), which is not
under `src/`.  The base's behavior is modelled from the spec:

* states are `Inactive / Push / Pull / OnlyPull / Done`;
* `addListener(node, t)` links the node into the listener list and, when
  the list was empty, runs `activate`, which subscribes to the parents
  and adopts a state derived from them (always one of
  `Push / Pull / OnlyPull`);
* `deactivate` unsubscribes from the parents and sets the state —
  `Done` terminally after a resolve, `Inactive` otherwise.  It does NOT
  clear the node's own listener list: the spec's resolve sequence
  (deactivate, store value, push to children) must still reach the
  already-attached listeners, as in its scenario D.

A JavaScript value that may be `undefined` is an `Option Val`. -/
inductive FState where
  | Push
  | Pull
  | OnlyPull
  | Inactive
  | Done
deriving DecidableEq, Repr

/-- A notification delivered to a listener node: node id, tick, value
(`none` models `undefined`). -/
def FNotif : Type := Nat × Int × Option Val

instance : DecidableEq FNotif := by
  unfold FNotif
  infer_instance

/-- State of one future object with no still-relevant parents of its
own (a `SinkFuture`, or any future whose parents are modelled
separately): its `state`, its `value` field, the listener nodes in its
child list, whether its listener nodes are currently attached to its
parents, and the state `activate` would adopt from the parents. -/
structure FutureSt where
  state : FState
  value : Option Val
  children : List Nat
  parentsSubscribed : Bool
  activeState : FState
deriving DecidableEq, Repr

/-- Modelled from the spec: `Reactive.deactivate(done)` of the newer
`common.ts` — unsubscribe from parents, set the state to `Done` when
called from `resolve` and to `Inactive` otherwise; the child list is
untouched. -/
def futureDeactivate (done : Bool) (f : FutureSt) : FutureSt :=
  { f with parentsSubscribed := false,
           state := if done then .Done else .Inactive }

/-- `Future.pushSToChildren(t, val)` (future.ts lines 47–51): push
`(t, val)` to every child. -/
def pushSToChildren (t : Int) (v : Val) (f : FutureSt) : List FNotif :=
  f.children.map (fun c => (c, t, some v))

/-- `Future.resolve(val, t)` (future.ts lines 42–46):
`this.deactivate(true); this.value = val; this.pushSToChildren(t, val)`.
There is no guard on the current state.  Returns the updated future and
the notifications this call delivered. -/
def futureResolve (v : Val) (t : Int) (f : FutureSt) :
    FutureSt × List FNotif :=
  let f1 := futureDeactivate true f
  let f2 := { f1 with value := some v }
  (f2, pushSToChildren t v f2)

/-- Modelled from the spec: `Reactive.addListener(node, t)` of the newer
`common.ts` — link the node into the listener list; when the list was
empty run `activate`, which subscribes to the parents and adopts the
parent-derived state when still `Inactive`; return the current state. -/
def reactiveAddListener (node : Nat) (f : FutureSt) : FutureSt × FState :=
  let wasEmpty := f.children.isEmpty
  let f1 := { f with children := f.children ++ [node] }
  let f2 :=
    if wasEmpty then
      { f1 with parentsSubscribed := true,
                state := if f1.state = .Inactive then f1.activeState
                         else f1.state }
    else f1
  (f2, f2.state)

/-- `Future.addListener(node, t)` (future.ts lines 52–59): when the
future is `Done`, immediately push the stored value to the new node and
return `Done` without touching the future; otherwise defer to the base
class.  Returns the future, the notifications fired by this call, and
the returned state. -/
def futureAddListener (node : Nat) (t : Int) (f : FutureSt) :
    FutureSt × List FNotif × FState :=
  if f.state = .Done then (f, [(node, t, f.value)], .Done)
  else
    let r := reactiveAddListener node f
    (r.1, [], r.2)

/-! ## Semantic futures (`future.ts` lines 11–22 and 107–120)

`neverOccurringFuture` has `time: "infinity"` (a string); occurrences
have numeric times.  `CombineFuture.semantic` compares with JavaScript
`a.time <= b.time`: number ≤ number is the usual order; a number
compared with the string `"infinity"` coerces the string to `NaN` and
yields `false`; string vs string compares lexicographically, so
`"infinity" <= "infinity"` is `true`. -/
inductive STime where
  | num (t : Int)
  | infinityStr
deriving DecidableEq, Repr

/-- JavaScript `<=` on the `time` fields. -/
def jsLeTime : STime → STime → Bool
  | .num a, .num b => a ≤ b
  | .num _, .infinityStr => false
  | .infinityStr, .num _ => false
  | .infinityStr, .infinityStr => true

/-- A `SemanticFuture`: occurrence time and value (`none` for the
`undefined` value of `neverOccurringFuture`). -/
structure SemanticF where
  time : STime
  value : Option Val
deriving DecidableEq, Repr

/-- `CombineFuture.semantic` (future.ts lines 115–119):
`a.time <= b.time ? a : b` where `a`, `b` are the parents' semantics. -/
def combineSemantic (a b : SemanticF) : SemanticF :=
  if jsLeTime a.time b.time then a else b

/-! ## The `Reactive` base of `src/unnamed/part_000`

Listener storage (part_000 lines 63–104): zero listeners — no child; one
listener — stored inline in `child`; two or more — a `MultiObserver`
holding an array.  `nrOfListeners` is a JavaScript number, incremented
and decremented unconditionally, so it is modelled as `Int`.
`activate` / `deactivate` are abstract in part_000; their bodies are
modelled from the spec: `activate` subscribes to the parents and adopts
an initial state derived from them (one of `Push / Pull / OnlyPull`,
passed in as `s0`), `deactivate` unsubscribes from the parents and
returns the state to `Inactive`. -/
inductive ChildStore where
  | noChild
  | single (c : Nat)
  | multi (cs : List Nat)
  | corrupt
deriving DecidableEq, Repr

/-- Lifecycle hooks fired by `addListener` / `removeListener`. -/
inductive REvent where
  | activateEv
  | deactivateEv
deriving DecidableEq, Repr

/-- State of a part_000 `Reactive`: listener count, child storage,
state, whether the parents are subscribed, and the log of lifecycle
hooks fired so far. -/
structure RSt where
  nr : Int
  child : ChildStore
  state : FState
  subscribed : Bool
  events : List REvent
deriving DecidableEq, Repr

/-- A `Reactive` as constructed (part_000 lines 67–70): `Inactive`,
zero listeners. -/
def rInit : RSt :=
  { nr := 0, child := .noChild, state := .Inactive, subscribed := false,
    events := [] }

/-- Child-storage growth of `Reactive.addListener` (part_000 lines
76–80), at the already incremented count `nr`: at 2 wrap the previous
inline child and the new listener in a `MultiObserver`; beyond 2 push
onto the `MultiObserver` array.  `corrupt` marks the child structures
containing `undefined` that JavaScript would build when the count and
the stored children disagree (unreachable in well-formed runs). -/
def growChild (nr : Int) (c : Nat) (ch : ChildStore) : ChildStore :=
  if nr = 2 then
    match ch with
    | .single c1 => .multi [c1, c]
    | _ => .corrupt
  else
    match ch with
    | .multi cs => .multi (cs ++ [c])
    | _ => .corrupt

/-- `Reactive.addListener(c)` (part_000 lines 71–82): increment
`nrOfListeners`; at 1 store the listener inline and `activate` (spec:
subscribe to parents, adopt the parent-derived state `s0`); otherwise
grow the child storage. -/
def rAddListener (s0 : FState) (c : Nat) (r : RSt) : RSt :=
  let nr := r.nr + 1
  if nr = 1 then
    { r with nr := nr, child := .single c, subscribed := true, state := s0,
             events := r.events ++ [.activateEv] }
  else
    { r with nr := nr, child := growChild nr c r.child }

/-- The array surgery of `removeListener` for three or more listeners
(part_000 lines 92–102): find the listener's index; if absent do
nothing; otherwise move the LAST element into its slot (unless it is
the last) and shrink the array by one. -/
def swapRemove (cs : List Nat) (c : Nat) : List Nat :=
  match cs.findIdx? (· = c) with
  | none => cs
  | some idx =>
      let l1 := if idx ≠ cs.length - 1
                then cs.set idx (cs.getD (cs.length - 1) 0)
                else cs
      l1.dropLast

/-- Child-storage shrinking of `Reactive.removeListener` (part_000
lines 88–103), at the already decremented count `nr`: at 1 keep
whichever of the two stored listeners was not removed; otherwise
swap-remove from the `MultiObserver` array. -/
def shrinkChild (nr : Int) (c : Nat) (ch : ChildStore) : ChildStore :=
  if nr = 1 then
    match ch with
    | .multi (c0 :: c1 :: _) => .single (if c0 = c then c1 else c0)
    | _ => .corrupt
  else
    match ch with
    | .multi cs => .multi (swapRemove cs c)
    | _ => .corrupt

/-- `Reactive.removeListener(listener)`, continued: decrement the
count; at 0 drop the child and `deactivate` (spec: unsubscribe from
parents, return to `Inactive`); otherwise shrink the child storage. -/
def rRemoveListener (c : Nat) (r : RSt) : RSt :=
  let nr := r.nr - 1
  if nr = 0 then
    { r with nr := nr, child := .noChild, subscribed := false,
             state := .Inactive, events := r.events ++ [.deactivateEv] }
  else
    { r with nr := nr, child := shrinkChild nr c r.child }

/-- An `addListener` or `removeListener` call. -/
inductive ROp where
  | add (c : Nat)
  | remove (c : Nat)
deriving DecidableEq, Repr

/-- One listener-management call. -/
def rStep (s0 : FState) (r : RSt) : ROp → RSt
  | .add c => rAddListener s0 c r
  | .remove c => rRemoveListener c r

/-- A sequence of listener-management calls. -/
def runOps (s0 : FState) (ops : List ROp) (r : RSt) : RSt :=
  ops.foldl (rStep s0) r

/-- Well-formed call sequences: starting from `n` attached listeners,
every `removeListener` has a listener to remove (the count never goes
below zero). -/
def wfOps (n : Int) : List ROp → Bool
  | [] => true
  | .add _ :: rest => wfOps (n + 1) rest
  | .remove _ :: rest => decide (1 ≤ n) && wfOps (n - 1) rest

/-- The lifecycle hooks the claim predicts: `activate` exactly on a
0→1 rise of the listener count, `deactivate` exactly on a 1→0 fall. -/
def expectedEvents (n : Int) : List ROp → List REvent
  | [] => []
  | .add _ :: rest =>
      (if n = 0 then [.activateEv] else []) ++ expectedEvents (n + 1) rest
  | .remove _ :: rest =>
      (if n = 1 then [.deactivateEv] else []) ++ expectedEvents (n - 1) rest

/-- Listener visit order of a push through the part_000 child storage:
the inline child alone, or the `MultiObserver` array in its current
order (`MultiObserver.push` iterates the array front to back). -/
def visitOrder : ChildStore → List Nat
  | .noChild => []
  | .single c => [c]
  | .multi cs => cs
  | .corrupt => []

/-- Folding a sequence of `addListener` calls only (for the
insertion-order theorem). -/
def addAll (s0 : FState) (ids : List Nat) (r : RSt) : RSt :=
  ids.foldl (fun acc c => rAddListener s0 c acc) r

/-! ## The `combine` future scenario (future.ts lines 107–120)

`c = combine(f1, f2)` with `f1`, `f2` sink futures and one external
subscriber `cb` attached to `c`.  `CombineFuture.pushS(t, val)` calls
`this.resolve(val, t)`; `resolve` (lines 42–46) deactivates — which,
modelled from the spec, unsubscribes `c`'s listener node from BOTH
parents and makes the state `Done` — stores the value and pushes it to
`c`'s children, i.e. to `cb`.  The world tracks, for each sink, its
done-flag, its value, and whether `c` is still in its child list, plus
`c`'s state and the subscriber's call log. -/
structure SinkSt where
  resolved : Bool
  value : Option Val
  childC : Bool
deriving DecidableEq, Repr

/-- The three-node world: two sink parents, the combine future, and the
log of values delivered to the subscriber of the combine future. -/
structure CombWorld where
  f1 : SinkSt
  f2 : SinkSt
  cDone : Bool
  cValue : Option Val
  log : List Val
deriving DecidableEq, Repr

/-- Modelled from the spec: the world after wiring
`c = combine(f1, f2); subscribe(cb, c)` — subscribing activates `c`,
which subscribes its listener node to both parents; nothing has
resolved yet. -/
def combineInit : CombWorld :=
  { f1 := { resolved := false, value := none, childC := true },
    f2 := { resolved := false, value := none, childC := true },
    cDone := false, cValue := none, log := [] }

/-- `CombineFuture.pushS` followed by `Future.resolve` on the combine
node: deactivate (unsubscribe from both parents, state `Done`), store
the value, push it to the subscriber. -/
def combinePushS (v : Val) (w : CombWorld) : CombWorld :=
  { f1 := { w.f1 with childC := false },
    f2 := { w.f2 with childC := false },
    cDone := true, cValue := some v, log := w.log ++ [v] }

/-- `Future.resolve(v)` on sink `f1`: deactivate (a sink has no
parents; its state becomes `Done`), store the value, push to its
children — the combine node, when still subscribed. -/
def resolveSink1 (v : Val) (w : CombWorld) : CombWorld :=
  let w1 := { w with f1 := { w.f1 with resolved := true, value := some v } }
  if w1.f1.childC then combinePushS v w1 else w1

/-- `Future.resolve(v)` on sink `f2`. -/
def resolveSink2 (v : Val) (w : CombWorld) : CombWorld :=
  let w1 := { w with f2 := { w.f2 with resolved := true, value := some v } }
  if w1.f2.childC then combinePushS v w1 else w1

/-- An external resolve of one of the two sinks. -/
inductive CombOp where
  | res1 (v : Val)
  | res2 (v : Val)
deriving DecidableEq, Repr

/-- The value an external resolve carries. -/
def CombOp.valOf : CombOp → Val
  | .res1 v => v
  | .res2 v => v

/-- One external resolve. -/
def combStep (w : CombWorld) : CombOp → CombWorld
  | .res1 v => resolveSink1 v w
  | .res2 v => resolveSink2 v w

/-- A sequence of external resolves. -/
def runComb (ops : List CombOp) (w : CombWorld) : CombWorld :=
  ops.foldl combStep w

/-! ## Theorems -/

/-- C1 (counterexample). A sink future in `Push` state with one
subscribed listener node `0` is resolved with `"a"` at tick 1 and then
again with `"b"` at tick 2.  Contrary to the claim, the second
`resolve` changes the stored value to `"b"` and delivers a second
notification to the listener: `resolve` (future.ts lines 42–46) has no
guard on the `Done` state, and `deactivate` does not empty the child
list. -/
theorem future_double_resolve_cex :
    ((futureResolve (Val.str "b") 2
        (futureResolve (Val.str "a") 1
          ⟨.Push, none, [0], false, .Push⟩).1).1.value
      ≠ (futureResolve (Val.str "a") 1
          ⟨.Push, none, [0], false, .Push⟩).1.value) ∧
    (futureResolve (Val.str "b") 2
        (futureResolve (Val.str "a") 1
          ⟨.Push, none, [0], false, .Push⟩).1).2
      = [(0, 2, some (Val.str "b"))] := by
  decide

/-- C1 (amended). A second `resolve(v2)` on a future leaves the STATE
field `Done`, but overwrites the stored value with `v2` and notifies
every listener in the child list again, with `v2`. -/
theorem future_resolve_twice (f : FutureSt) (v1 v2 : Val) (t1 t2 : Int) :
    (futureResolve v1 t1 f).1.state = .Done ∧
    (futureResolve v2 t2 (futureResolve v1 t1 f).1).1.state = .Done ∧
    (futureResolve v2 t2 (futureResolve v1 t1 f).1).1.value = some v2 ∧
    (futureResolve v2 t2 (futureResolve v1 t1 f).1).2
      = f.children.map (fun c => (c, t2, some v2)) := by
  simp [futureResolve, futureDeactivate, pushSToChildren]

/-- C2 (counterexample). For a behavior currently worth `10` and a
stream occurrence `1`, `SnapshotStream.push` publishes the PAIR
`[1, 10]` (Stream.ts line 116), not the sampled behavior value `10`
that the claim announces as the occurrence value. -/
theorem snapshot_value_cex :
    snapshotStreamPush ⟨Val.int 10⟩ (Val.int 1)
      = [Val.pair (Val.int 1) (Val.int 10)] ∧
    snapshotStreamPush ⟨Val.int 10⟩ (Val.int 1) ≠ [atB ⟨Val.int 10⟩] := by
  decide

/-- C2 (amended). Each occurrence `a` of the parent stream makes
`snapshot(b, s)` emit exactly one occurrence, whose value is the pair
of `a` and the sampled value of `b`. -/
theorem snapshot_emits_pair (b : BehaviorV) (xs : List Val) :
    snapshotStreamRun b xs = xs.map (fun a => Val.pair a (atB b)) ∧
    (snapshotStreamRun b xs).length = xs.length := by
  constructor
  · induction xs with
    | nil => rfl
    | cons x rest ih =>
        simp only [snapshotStreamRun, snapshotStreamPush, List.flatMap_cons,
          List.map_cons] at ih ⊢
        simp [ih]
  · induction xs with
    | nil => rfl
    | cons x rest ih =>
        simp only [snapshotStreamRun, snapshotStreamPush, List.flatMap_cons,
          List.length_cons] at ih ⊢
        simp [ih]

/-- C4. When a future is `Done` with stored value `v`, `addListener`
(future.ts lines 52–59) immediately fires the new node with `v`,
returns the `Done` state, and leaves the future unchanged. -/
theorem future_addListener_done (f : FutureSt) (node : Nat) (t : Int)
    (v : Val) (hs : f.state = .Done) (hv : f.value = some v) :
    futureAddListener node t f = (f, [(node, t, some v)], .Done) := by
  simp [futureAddListener, hs, hv]

/-- C4 (witness). The Done future with value `4` fires node `3`
immediately with `4` and reports `Done`. -/
theorem future_addListener_done_witness :
    (⟨.Done, some (Val.int 4), [0], false, .Push⟩ : FutureSt).state
        = .Done ∧
    (⟨.Done, some (Val.int 4), [0], false, .Push⟩ : FutureSt).value
        = some (Val.int 4) ∧
    futureAddListener 3 7 ⟨.Done, some (Val.int 4), [0], false, .Push⟩
      = (⟨.Done, some (Val.int 4), [0], false, .Push⟩,
         [(3, 7, some (Val.int 4))], .Done) :=
  ⟨rfl, rfl, future_addListener_done _ 3 7 (Val.int 4) rfl rfl⟩

/-- C7. `MapStream` satisfies the functor laws observably: mapping the
identity publishes the same sequence as the sink stream itself, and
mapping `g` after mapping `f` publishes the same sequence as mapping
`g ∘ f` (MapStream.push, Stream.ts lines 82–84, publishes exactly
`f(a)` per parent occurrence). -/
theorem map_stream_functor_laws (f g : Val → Val) (xs : List Val) :
    mapStreamRun id xs = sinkStreamRun xs ∧
    mapStreamRun g (mapStreamRun f xs) = mapStreamRun (g ∘ f) xs := by
  constructor
  · induction xs with
    | nil => rfl
    | cons x rest ih =>
        simpa [mapStreamRun, mapStreamPush, sinkStreamRun] using ih
  · induction xs with
    | nil => rfl
    | cons x rest ih =>
        simpa [mapStreamRun, mapStreamPush] using ih

/-- C9 (counterexample). Publishing `5` on a fresh stream sets the
stream's own `last` field to `5` (Stream.ts line 17): the stream DOES
retain the occurrence value, contrary to the claim. -/
theorem publish_retains_value_cex :
    (streamPublish (Val.int 5) ⟨none, [Ob.record 0]⟩).1.last
        = some (Val.int 5) ∧
    (streamPublish (Val.int 5) ⟨none, [Ob.record 0]⟩).1.last ≠ none := by
  decide

/-- C9 (amended). `Stream.publish(a)` stores the occurrence value `a`
into the stream's `last` field before notifying listeners; the stream
retains the most recent occurrence value. -/
theorem publish_stores_last (a : Val) (s : StreamSt) :
    (streamPublish a s).1.last = some a := by
  simp [streamPublish]

/-- C10. When both parents' semantic occurrences have the same numeric
time, `CombineFuture.semantic` (future.ts lines 115–119) returns the
first parent's occurrence: with equal times `a.time <= b.time` holds,
so `a` is chosen. -/
theorem combine_semantic_tie (a b : SemanticF) (t : Int)
    (ha : a.time = .num t) (hb : b.time = .num t) :
    combineSemantic a b = a := by
  simp [combineSemantic, ha, hb, jsLeTime]

/-- C10 (witness). Two occurrences at time 3 with values 1 and 2:
combine picks the first. -/
theorem combine_semantic_tie_witness :
    (⟨.num 3, some (Val.int 1)⟩ : SemanticF).time = .num 3 ∧
    (⟨.num 3, some (Val.int 2)⟩ : SemanticF).time = .num 3 ∧
    combineSemantic ⟨.num 3, some (Val.int 1)⟩ ⟨.num 3, some (Val.int 2)⟩
      = ⟨.num 3, some (Val.int 1)⟩ :=
  ⟨rfl, rfl, combine_semantic_tie _ _ 3 rfl rfl⟩

/-- Indexing an element placed right after a prefix. -/
theorem get_append_cons (done : List Ob) (ob : Ob) (rest : List Ob) :
    (done ++ ob :: rest).get? done.length = some ob := by
  induction done with
  | nil => rfl
  | cons d ds ih => simpa using ih

/-- The cached-length loop invoked on `done ++ todo ++ extra` with
`todo.length` iterations left and index `done.length` invokes exactly
the elements of `todo`, in order; callbacks may append listeners (the
array may grow to some `done ++ todo ++ extra2`) but the appended
listeners are never invoked, because the iteration count was fixed
before the loop. -/
theorem cbLoop_processes_initial (a : Val) (todo : List Ob) :
    ∀ (done extra : List Ob) (log : List (Nat × Val)),
    ∃ extra2,
      cbLoop a todo.length done.length (done ++ todo ++ extra) log
        = (done ++ todo ++ extra2,
           log ++ todo.map (fun o => (o.idOf, a))) := by
  induction todo with
  | nil =>
      intro done extra log
      exact ⟨extra, by simp [cbLoop]⟩
  | cons ob rest ih =>
      intro done extra log
      have hget : (done ++ (ob :: rest) ++ extra).get? done.length = some ob := by
        rw [List.append_assoc]
        exact get_append_cons done ob (rest ++ extra)
      cases ob with
      | record id =>
          have hstep : obStep a (done ++ (Ob.record id :: rest) ++ extra)
              done.length log
              = (done ++ (Ob.record id :: rest) ++ extra, log ++ [(id, a)]) := by
            simp only [obStep, hget]
          obtain ⟨extra2, h2⟩ :=
            ih (done ++ [Ob.record id]) extra (log ++ [(id, a)])
          refine ⟨extra2, ?_⟩
          show cbLoop a (rest.length + 1) done.length
              (done ++ (Ob.record id :: rest) ++ extra) log = _
          rw [show cbLoop a (rest.length + 1) done.length
                (done ++ (Ob.record id :: rest) ++ extra) log
              = cbLoop a rest.length (done.length + 1)
                  (obStep a (done ++ (Ob.record id :: rest) ++ extra)
                    done.length log).1
                  (obStep a (done ++ (Ob.record id :: rest) ++ extra)
                    done.length log).2 from rfl]
          rw [hstep]
          simp only [List.append_assoc, List.singleton_append,
            List.cons_append, List.length_append, List.length_cons,
            List.length_nil, List.map_cons] at h2 ⊢
          simpa using h2
      | addThenRecord nw id =>
          have hstep : obStep a (done ++ (Ob.addThenRecord nw id :: rest) ++ extra)
              done.length log
              = ((done ++ (Ob.addThenRecord nw id :: rest) ++ extra) ++ [nw],
                 log ++ [(id, a)]) := by
            simp only [obStep, hget]
          obtain ⟨extra2, h2⟩ :=
            ih (done ++ [Ob.addThenRecord nw id]) (extra ++ [nw]) (log ++ [(id, a)])
          refine ⟨extra2, ?_⟩
          show cbLoop a (rest.length + 1) done.length
              (done ++ (Ob.addThenRecord nw id :: rest) ++ extra) log = _
          rw [show cbLoop a (rest.length + 1) done.length
                (done ++ (Ob.addThenRecord nw id :: rest) ++ extra) log
              = cbLoop a rest.length (done.length + 1)
                  (obStep a (done ++ (Ob.addThenRecord nw id :: rest) ++ extra)
                    done.length log).1
                  (obStep a (done ++ (Ob.addThenRecord nw id :: rest) ++ extra)
                    done.length log).2 from rfl]
          rw [hstep]
          simp only [List.append_assoc, List.singleton_append,
            List.cons_append, List.length_append, List.length_cons,
            List.length_nil, List.map_cons] at h2 ⊢
          simpa using h2

/-- C3 (counterexample). A `MultiObserver` fan-out over one listener
whose callback appends listener `2` to the same array: because the
loop of `MultiObserver.push` (part_000 lines 48–50) re-reads
`listeners.length` each iteration, the listener added DURING the tick
is invoked with the in-flight value `7` — refuting the claim that a
listener added during a tick never receives that tick's value. -/
theorem multi_observer_added_listener_cex :
    multiObserverPush 5 (Val.int 7) [Ob.addThenRecord (Ob.record 2) 1]
      = [(1, Val.int 7), (2, Val.int 7)] := by
  decide

/-- C3 (amended). In `Stream.publish` the loop bound is cached before
the callback loop runs, so the listeners invoked in a tick are exactly
those present in `cbListeners` when the loop starts, in order — a
callback listener added during that loop is not invoked with the
in-flight value.  (`MultiObserver.push` re-reads the length and does
not give this guarantee.) -/
theorem stream_publish_initial_only (a : Val) (last0 : Option Val)
    (init : List Ob) :
    (streamPublish a ⟨last0, init⟩).2 = init.map (fun o => (o.idOf, a)) := by
  obtain ⟨extra2, h⟩ := cbLoop_processes_initial a init [] [] []
  simp only [List.nil_append, List.append_nil, List.length_nil] at h
  simp [streamPublish, h]

/-- The invariant the claim asserts: a non-negative listener count,
`Inactive` exactly at count zero, parents subscribed exactly at a
positive count. -/
def rInv (r : RSt) : Prop :=
  0 ≤ r.nr ∧ (r.state = .Inactive ↔ r.nr = 0) ∧ (r.subscribed = true ↔ r.nr ≠ 0)

/-- Step lemma for the lifecycle claim: over any well-formed call
sequence the invariant is preserved and the fired lifecycle hooks are
exactly the predicted edge events. -/
theorem runOps_spec (s0 : FState) (hs0 : s0 ≠ .Inactive) (ops : List ROp) :
    ∀ r : RSt, rInv r → wfOps r.nr ops = true →
      rInv (runOps s0 ops r) ∧
      (runOps s0 ops r).events = r.events ++ expectedEvents r.nr ops := by
  induction ops with
  | nil =>
      intro r hI _
      exact ⟨hI, by simp [runOps, expectedEvents]⟩
  | cons op rest ih =>
      intro r hI hwf
      obtain ⟨hnn, hstate, hsub⟩ := hI
      have hrun : runOps s0 (op :: rest) r = runOps s0 rest (rStep s0 r op) := rfl
      cases op with
      | add c =>
          have hwf' : wfOps (r.nr + 1) rest = true := hwf
          by_cases h0 : r.nr = 0
          · have hstep : rStep s0 r (.add c) = { r with nr := r.nr + 1, child := .single c, subscribed := true, state := s0, events := r.events ++ [.activateEv] } := by
              simp [rStep, rAddListener, h0]
            have hI2 : rInv { r with nr := r.nr + 1, child := ChildStore.single c, subscribed := true, state := s0, events := r.events ++ [.activateEv] } := by
              refine ⟨?_, ?_, ?_⟩
              · show (0 : Int) ≤ r.nr + 1
                omega
              · show s0 = FState.Inactive ↔ r.nr + 1 = 0
                constructor
                · intro hc; exact absurd hc hs0
                · intro hc; exact absurd hc (by omega)
              · show (true = true) ↔ r.nr + 1 ≠ 0
                constructor
                · intro _; omega
                · intro _; rfl
            obtain ⟨hIr, hev⟩ := ih _ hI2 (by simpa using hwf')
            refine ⟨by rwa [hrun, hstep], ?_⟩
            rw [hrun, hstep, hev]
            simp [expectedEvents, h0]
          · have h1 : ¬ (r.nr + 1 = 1) := by omega
            have hstep : rStep s0 r (.add c) = { r with nr := r.nr + 1, child := growChild (r.nr + 1) c r.child } := by
              simp [rStep, rAddListener, h1]
            have hI2 : rInv { r with nr := r.nr + 1, child := growChild (r.nr + 1) c r.child } := by
              refine ⟨?_, ?_, ?_⟩
              · show (0 : Int) ≤ r.nr + 1
                omega
              · show r.state = FState.Inactive ↔ r.nr + 1 = 0
                constructor
                · intro hc; exact absurd (hstate.mp hc) h0
                · intro hc; exact absurd hc (by omega)
              · show r.subscribed = true ↔ r.nr + 1 ≠ 0
                constructor
                · intro _; omega
                · intro _; exact hsub.mpr h0
            obtain ⟨hIr, hev⟩ := ih _ hI2 (by simpa using hwf')
            refine ⟨by rwa [hrun, hstep], ?_⟩
            rw [hrun, hstep, hev]
            simp [expectedEvents, h0]
      | remove c =>
          have hwf2 : 1 ≤ r.nr ∧ wfOps (r.nr - 1) rest = true := by
            have h := hwf
            simp only [wfOps, Bool.and_eq_true, decide_eq_true_eq] at h
            exact h
          by_cases h1 : r.nr = 1
          · have hstep : rStep s0 r (.remove c) = { r with nr := r.nr - 1, child := .noChild, subscribed := false, state := .Inactive, events := r.events ++ [.deactivateEv] } := by
              simp [rStep, rRemoveListener, h1]
            have hI2 : rInv { r with nr := r.nr - 1, child := ChildStore.noChild, subscribed := false, state := FState.Inactive, events := r.events ++ [.deactivateEv] } := by
              refine ⟨?_, ?_, ?_⟩
              · show (0 : Int) ≤ r.nr - 1
                omega
              · show FState.Inactive = FState.Inactive ↔ r.nr - 1 = 0
                constructor
                · intro _; omega
                · intro _; rfl
              · show (false = true) ↔ r.nr - 1 ≠ 0
                constructor
                · intro hc; exact absurd hc (by simp)
                · intro hc; exact absurd (show r.nr - 1 = 0 by omega) hc
            obtain ⟨hIr, hev⟩ := ih _ hI2 (by simpa using hwf2.2)
            refine ⟨by rwa [hrun, hstep], ?_⟩
            rw [hrun, hstep, hev]
            simp [expectedEvents, h1]
          · have h0' : ¬ (r.nr - 1 = 0) := by omega
            have hstep : rStep s0 r (.remove c) = { r with nr := r.nr - 1, child := shrinkChild (r.nr - 1) c r.child } := by
              simp [rStep, rRemoveListener, h0']
            have hI2 : rInv { r with nr := r.nr - 1, child := shrinkChild (r.nr - 1) c r.child } := by
              refine ⟨?_, ?_, ?_⟩
              · show (0 : Int) ≤ r.nr - 1
                omega
              · show r.state = FState.Inactive ↔ r.nr - 1 = 0
                constructor
                · intro hc
                  exact absurd (hstate.mp hc) (by omega)
                · intro hc; exact absurd hc h0'
              · show r.subscribed = true ↔ r.nr - 1 ≠ 0
                constructor
                · intro _; omega
                · intro _; exact hsub.mpr (by omega)
            obtain ⟨hIr, hev⟩ := ih _ hI2 (by simpa using hwf2.2)
            refine ⟨by rwa [hrun, hstep], ?_⟩
            rw [hrun, hstep, hev]
            simp [expectedEvents, h1]

/-- C5. Starting from a freshly constructed reactive, after any
well-formed sequence of `addListener` / `removeListener` calls
(removes never outnumber adds) whose activation state `s0` is one the
spec allows (not `Inactive`): the reactive is `Inactive` iff
`nrOfListeners = 0`, the parents are subscribed iff the count is
positive, and `activate` / `deactivate` fire exactly on the 0→1 and
1→0 edges of the count. -/
theorem listener_count_lifecycle (s0 : FState) (ops : List ROp)
    (hs0 : s0 ≠ .Inactive) (hwf : wfOps 0 ops = true) :
    ((runOps s0 ops rInit).state = .Inactive
        ↔ (runOps s0 ops rInit).nr = 0) ∧
    ((runOps s0 ops rInit).subscribed = true
        ↔ (runOps s0 ops rInit).nr ≠ 0) ∧
    (runOps s0 ops rInit).events = expectedEvents 0 ops := by
  have hI : rInv rInit := by simp [rInv, rInit]
  obtain ⟨⟨_, hst, hsb⟩, hev⟩ :=
    runOps_spec s0 hs0 ops rInit hI (by simpa [rInit] using hwf)
  exact ⟨hst, hsb, by simpa [rInit] using hev⟩

/-- C5 (witness). The call sequence add 0, add 1, remove 0, remove 1 is
well-formed and satisfies the lifecycle claim. -/
theorem listener_count_lifecycle_witness :
    (FState.Push ≠ FState.Inactive) ∧
    wfOps 0 [ROp.add 0, ROp.add 1, ROp.remove 0, ROp.remove 1] = true ∧
    (((runOps FState.Push [ROp.add 0, ROp.add 1, ROp.remove 0, ROp.remove 1]
        rInit).state = .Inactive
      ↔ (runOps FState.Push [ROp.add 0, ROp.add 1, ROp.remove 0, ROp.remove 1]
        rInit).nr = 0) ∧
     ((runOps FState.Push [ROp.add 0, ROp.add 1, ROp.remove 0, ROp.remove 1]
        rInit).subscribed = true
      ↔ (runOps FState.Push [ROp.add 0, ROp.add 1, ROp.remove 0, ROp.remove 1]
        rInit).nr ≠ 0) ∧
     (runOps FState.Push [ROp.add 0, ROp.add 1, ROp.remove 0, ROp.remove 1]
        rInit).events
       = expectedEvents 0 [ROp.add 0, ROp.add 1, ROp.remove 0, ROp.remove 1]) :=
  ⟨by decide, by decide,
   listener_count_lifecycle _ _ (by decide) (by decide)⟩

/-- Once the combine future is unsubscribed from both parents, no later
external resolve of either sink changes the combine future, the
subscriber log, or the (absent) subscriptions. -/
theorem runComb_detached (ops : List CombOp) :
    ∀ w : CombWorld, w.f1.childC = false → w.f2.childC = false →
      (runComb ops w).log = w.log ∧ (runComb ops w).cDone = w.cDone ∧
      (runComb ops w).cValue = w.cValue ∧
      (runComb ops w).f1.childC = false ∧ (runComb ops w).f2.childC = false := by
  induction ops with
  | nil => intro w h1 h2; exact ⟨rfl, rfl, rfl, h1, h2⟩
  | cons op rest ih =>
      intro w h1 h2
      have hrun : runComb (op :: rest) w = runComb rest (combStep w op) := rfl
      cases op with
      | res1 v =>
          have hstep : combStep w (.res1 v) = { w with f1 := { w.f1 with resolved := true, value := some v } } := by
            simp [combStep, resolveSink1, h1]
          rw [hrun, hstep]
          exact ih { w with f1 := { w.f1 with resolved := true, value := some v } } h1 h2
      | res2 v =>
          have hstep : combStep w (.res2 v) = { w with f2 := { w.f2 with resolved := true, value := some v } } := by
            simp [combStep, resolveSink2, h2]
          rw [hrun, hstep]
          exact ih { w with f2 := { w.f2 with resolved := true, value := some v } } h1 h2

/-- C6. For any non-empty sequence of external resolves of the two sink
parents, `combine(f1, f2)` resolves exactly once — the subscriber is
called exactly once, with the value of whichever sink resolved first —
and from that first resolution on the combine future is `Done` and is
unsubscribed from both parents. -/
theorem combine_resolves_once (op0 : CombOp) (ops : List CombOp) :
    (runComb (op0 :: ops) combineInit).log = [op0.valOf] ∧
    (runComb (op0 :: ops) combineInit).cDone = true ∧
    (runComb (op0 :: ops) combineInit).cValue = some op0.valOf ∧
    (runComb (op0 :: ops) combineInit).f1.childC = false ∧
    (runComb (op0 :: ops) combineInit).f2.childC = false := by
  have hrun : runComb (op0 :: ops) combineInit = runComb ops (combStep combineInit op0) := rfl
  cases op0 with
  | res1 v =>
      have hstep : combStep combineInit (.res1 v) = (⟨⟨true, some v, false⟩, ⟨false, none, false⟩, true, some v, [v]⟩ : CombWorld) := by
        simp [combStep, resolveSink1, combineInit, combinePushS]
      obtain ⟨hl, hd, hv, hc1, hc2⟩ :=
        runComb_detached ops ⟨⟨true, some v, false⟩, ⟨false, none, false⟩, true, some v, [v]⟩ rfl rfl
      rw [hrun, hstep]
      exact ⟨hl, hd, hv, hc1, hc2⟩
  | res2 v =>
      have hstep : combStep combineInit (.res2 v) = (⟨⟨false, none, false⟩, ⟨true, some v, false⟩, true, some v, [v]⟩ : CombWorld) := by
        simp [combStep, resolveSink2, combineInit, combinePushS]
      obtain ⟨hl, hd, hv, hc1, hc2⟩ :=
        runComb_detached ops ⟨⟨false, none, false⟩, ⟨true, some v, false⟩, true, some v, [v]⟩ rfl rfl
      rw [hrun, hstep]
      exact ⟨hl, hd, hv, hc1, hc2⟩

/-- Adding listeners to a reactive that already stores a
`MultiObserver` array appends them at the end, in call order. -/
theorem addAll_multi (s0 : FState) (ids : List Nat) :
    ∀ (r : RSt) (cs : List Nat), r.child = .multi cs →
      r.nr = (cs.length : Int) → 2 ≤ cs.length →
      (addAll s0 ids r).child = .multi (cs ++ ids) := by
  induction ids with
  | nil =>
      intro r cs h1 _ _
      simpa [addAll] using h1
  | cons c rest ih =>
      intro r cs h1 h2 h3
      have hrun : addAll s0 (c :: rest) r = addAll s0 rest (rAddListener s0 c r) := rfl
      have hne1 : ¬ (r.nr + 1 = 1) := by rw [h2]; omega
      have hne2 : ¬ (r.nr + 1 = 2) := by rw [h2]; omega
      have hstep : rAddListener s0 c r = { r with nr := r.nr + 1, child := growChild (r.nr + 1) c r.child } := by
        simp [rAddListener, hne1]
      have hgrow : growChild (r.nr + 1) c r.child = .multi (cs ++ [c]) := by
        simp [growChild, hne2, h1]
      rw [hrun, hstep]
      have := ih { r with nr := r.nr + 1, child := growChild (r.nr + 1) c r.child } (cs ++ [c])
        (by show growChild (r.nr + 1) c r.child = _; rw [hgrow])
        (by show r.nr + 1 = (((cs ++ [c]).length : Nat) : Int); rw [h2]; simp)
        (by simp; omega)
      simpa using this

/-- C8 (amended). In the absence of `removeListener` calls, a push
through the part_000 child storage visits the listeners exactly in
insertion order (the fan-out itself is a total function of the state,
i.e. it completes before control returns).  Removals break this: see
the counterexample. -/
theorem push_visits_insertion_order (s0 : FState) (ids : List Nat) :
    visitOrder (addAll s0 ids rInit).child = ids := by
  match ids with
  | [] => rfl
  | [a] =>
      show visitOrder (rAddListener s0 a rInit).child = [a]
      simp [rAddListener, rInit, visitOrder]
  | a :: b :: rest =>
      have hrun : addAll s0 (a :: b :: rest) rInit = addAll s0 rest (rAddListener s0 b (rAddListener s0 a rInit)) := rfl
      have hr1 : rAddListener s0 a rInit = { nr := 1, child := .single a, state := s0, subscribed := true, events := [.activateEv] } := by
        simp [rAddListener, rInit]
      have hr2 : rAddListener s0 b { nr := 1, child := ChildStore.single a, state := s0, subscribed := true, events := [.activateEv] } = { nr := 2, child := .multi [a, b], state := s0, subscribed := true, events := [.activateEv] } := by
        simp [rAddListener, growChild]
      rw [hrun, hr1, hr2]
      have h := addAll_multi s0 rest { nr := 2, child := ChildStore.multi [a, b], state := s0, subscribed := true, events := [.activateEv] } [a, b] rfl (by norm_num) (by norm_num)
      rw [h]
      simp [visitOrder]

/-- C8 (counterexample). Insert listeners 1, 2, 3, then remove
listener 1: `removeListener` (part_000 lines 96–101) moves the LAST
listener into the freed slot, so the next push visits `[3, 2]` — not
the insertion order `[2, 3]` of the remaining listeners. -/
theorem remove_breaks_insertion_order_cex :
    visitOrder (rRemoveListener 1 (addAll .Push [1, 2, 3] rInit)).child = [3, 2] ∧
    ([3, 2] : List Nat) ≠ [2, 3] := by
  decide
